import Mathlib

/-!
# Verification of the hybrid retrieval / fusion / gated-generation pipeline

Shallow embedding, in Lean 4, of the parts of the repository that the
specification's claims are about:

* `reciprocal_rank_fusion` (src/core/crud.py) — Reciprocal Rank Fusion of a
  lexical and a vector result list;
* `query_books` (src/main.py) — the Retrieval Gate and the Generation Gate;
* the configuration store (src/core/config_store.py);
* `_validate_answer_response` (src/core/llm_client.py);
* the text sanitizer (src/core/sanitizer.py);
* `_perform_semantic_chunking` (src/agents/parser.py).

Python `float` scores and thresholds are modelled as rationals (`ℚ`): the
properties proved here only use ordering and exact comparison, which the
rational model preserves.  Python `int` is modelled as `Int`.
-/

/-! ## Python string primitives

Python `str.strip()` with no argument removes the leading and trailing
characters for which `str.isspace()` holds.  `pyIsSpace` lists those
characters (ASCII whitespace, the C1 whitespace controls, and the Unicode
space/separator code points recognised by CPython). -/

def pyIsSpace (c : Char) : Bool :=
  c = ' ' ∨ c = '\t' ∨ c = '\n' ∨ c = '\r' ∨ c = '\x0b' ∨ c = '\x0c' ∨
  (c.val ≥ 0x1c ∧ c.val ≤ 0x1f) ∨ c.val = 0x85 ∨ c.val = 0xa0 ∨
  c.val = 0x1680 ∨ (c.val ≥ 0x2000 ∧ c.val ≤ 0x200a) ∨
  c.val = 0x2028 ∨ c.val = 0x2029 ∨ c.val = 0x202f ∨ c.val = 0x205f ∨
  c.val = 0x3000

/-- Remove the leading and the trailing run of whitespace characters of a
character list: the list-level model of Python `str.strip()`. -/
def stripList (l : List Char) : List Char :=
  (l.dropWhile pyIsSpace).rdropWhile pyIsSpace

/-- Python `str.strip()` (no argument). -/
def pyStrip (s : String) : String :=
  String.mk (stripList s.data)

/-- Python `len` on a `str` (number of code points). -/
def pyLen (s : String) : Nat := s.data.length

/-! ## Reciprocal Rank Fusion (src/core/crud.py, `reciprocal_rank_fusion`)

The Python function builds `lexical_scores` / `vector_scores` dicts from the
input lists, iterates the *set* `all_chunk_ids = keys(lex) | keys(vec)`,
computes each id's RRF score from the 1-based position of the pair
`(chunk_id, dict_score)` in the original list, and sorts the resulting dict
items by score descending with Python's stable `sorted`.

CPython's set iteration order is implementation defined (it depends on the
hash-table layout), so the embedding takes the enumeration order of
`all_chunk_ids` as an explicit argument `enum`; `validEnum` says exactly that
`enum` enumerates the union of the two key sets without duplicates.  Python's
`sorted(..., key=lambda x: x[1], reverse=True)` is a *stable* descending sort
on the score component, modelled by `sortByScoreDesc`. -/

/-- Lookup in the dict `{chunk_id: score for chunk_id, score in results}`:
for a duplicated key the *last* pair wins, as in a Python dict
comprehension (later assignments overwrite earlier ones). -/
def dictLookup : List (Int × ℚ) → Int → Option ℚ
  | [], _ => none
  | p :: rest, id =>
    match dictLookup rest id with
    | some s => some s
    | none => if p.1 = id then some p.2 else none

/-- Python `list.index(x)` (first index of `x`; the Python call only happens
when `x` is present, so the out-of-range value of `indexOf` is never
reached on the paths the code takes). -/
def pyIndex (l : List (Int × ℚ)) (x : Int × ℚ) : Nat :=
  l.indexOf x

/-- Contribution of one result list to a chunk id's RRF score:
`1.0 / (k + rank)` when the id is a key of the list's dict, `0` otherwise
(the `if chunk_id in ..._scores` branches of the Python loop body). -/
def rrfContribution (l : List (Int × ℚ)) (k : Int) (id : Int) : ℚ :=
  match dictLookup l id with
  | none => 0
  | some s => 1 / ((k : ℚ) + ((pyIndex l (id, s) : ℚ) + 1))

/-- The fused score computed for `id` by the Python loop body. -/
def rrfScore (lex vec : List (Int × ℚ)) (k : Int) (id : Int) : ℚ :=
  rrfContribution lex k id + rrfContribution vec k id

/-- The comparison of `sorted(..., key=lambda x: x[1], reverse=True)`:
`a` may come before `b` when `a`'s score is ≥ `b`'s. -/
def scoreGe (a b : Int × ℚ) : Prop := b.2 ≤ a.2

instance : DecidableRel scoreGe :=
  fun a b => inferInstanceAs (Decidable (b.2 ≤ a.2))

instance : IsTotal (Int × ℚ) scoreGe := ⟨fun a b => le_total b.2 a.2⟩

instance : IsTrans (Int × ℚ) scoreGe := ⟨fun _ _ _ h1 h2 => le_trans h2 h1⟩

/-- Stable sort, descending by the score component: insertion sort places
each element before the first element with a ≤ score, so elements with equal
scores keep their input order — exactly the (documented) stability of
Python's `sorted` with `reverse=True`. -/
def sortByScoreDesc (l : List (Int × ℚ)) : List (Int × ℚ) :=
  l.insertionSort scoreGe

/-- `enum` is a possible iteration order of the Python set
`set(lexical_scores) | set(vector_scores)`. -/
def validEnum (lex vec : List (Int × ℚ)) (enum : List Int) : Prop :=
  enum.Nodup ∧
  ∀ id : Int, id ∈ enum ↔ (id ∈ lex.map Prod.fst ∨ id ∈ vec.map Prod.fst)

/-- `reciprocal_rank_fusion(lexical_results, vector_results, k)` from
src/core/crud.py, with the set-iteration order `enum` made explicit.
The `try/except` wrapper of the source returns the lexical list on internal
failure; no operation in the body can fail, so the embedding is the direct
computation. -/
def reciprocal_rank_fusion (lex vec : List (Int × ℚ)) (k : Int)
    (enum : List Int) : List (Int × ℚ) :=
  sortByScoreDesc (enum.map (fun id => (id, rrfScore lex vec k id)))

/-- The score the specification assigns to `id`: the sum over the lists
containing `id` of `1 / (k + rank)`, where `rank` is the 1-based position of
`id` in that list. -/
def specRrfScore (lex vec : List (Int × ℚ)) (k : Int) (id : Int) : ℚ :=
  (if id ∈ lex.map Prod.fst
     then 1 / ((k : ℚ) + (((lex.map Prod.fst).indexOf id : ℚ) + 1)) else 0) +
  (if id ∈ vec.map Prod.fst
     then 1 / ((k : ℚ) + (((vec.map Prod.fst).indexOf id : ℚ) + 1)) else 0)

/-! ## Query pipeline: Retrieval Gate and Generation Gate
(src/main.py, `query_books` and `_format_chunks_for_llm`)

The endpoint retrieves chunks, rejects at the Retrieval Gate when fewer than
`min_chunks` were retrieved, otherwise formats the context, calls the answer
generator, and rejects at the Generation Gate when the validated answer's
confidence is strictly below `confidence_threshold`.  The generator is a
function argument `generate`: `generate_grounded_answer` never raises (it
converts every internal failure into a fallback `Answer` with confidence 0),
so it is modelled as a total function from the formatted context to an
`Answer`. -/

/-- src/core/schemas.py, `Claim`. -/
structure Claim where
  text : String
  source_chunk_id : Int
  page_number : Int
deriving DecidableEq, Repr

/-- src/core/schemas.py, `Answer`. -/
structure Answer where
  answer_summary : String
  claims : List Claim
  confidence_score : ℚ
deriving DecidableEq, Repr

/-- src/core/schemas.py, `RAGConfig`. -/
structure RAGConfig where
  retrieval_top_k : Int := 10
  min_chunks : Int := 2
  confidence_threshold : ℚ := 7/10
  relevance_threshold : ℚ := 5/10
  max_context_length : Int := 4000
  temperature : ℚ := 1/10
  enable_fallback : Bool := true
deriving DecidableEq, Repr

/-- src/core/models.py `Chunk`, restricted to the fields `query_books`
reads. -/
structure Chunk where
  id : Int
  page_number : Int
  chunk_text : String
deriving DecidableEq, Repr

/-- src/core/schemas.py `QueryResponse`: exactly one of a structured answer
or a fallback message. -/
inductive QueryResponse where
  | answer (a : Answer)
  | fallback_message (msg : String)
deriving DecidableEq, Repr

/-- The fallback message of the Retrieval Gate (src/main.py). -/
def retrievalFallbackMsg : String :=
  "I couldn't find enough relevant information in the available documents to answer your question confidently. Please try rephrasing your query or check if the information you're looking for is in the uploaded books."

/-- The fallback message of the Generation Gate (src/main.py). -/
def generationFallbackMsg : String :=
  "I'm not confident enough in my answer to provide it accurately. The available information doesn't sufficiently support a reliable response to your question."

/-- src/main.py, `_format_chunks_for_llm`. -/
def format_chunks_for_llm (chunks : List Chunk) : String :=
  if chunks = [] then "No context available."
  else
    String.intercalate "\n"
      ((List.enumFrom 1 chunks).map (fun p =>
        "[Chunk " ++ toString p.1 ++ " - ID: " ++ toString p.2.id ++
        ", Page: " ++ toString p.2.page_number ++ "]\n" ++
        p.2.chunk_text ++ "\n"))

/-- src/main.py, `query_books`, from the point where the retrieved chunks
are in hand (steps 2–6 of the source: Retrieval Gate, context formatting,
generation, Generation Gate). -/
def query_books (config : RAGConfig) (retrieved_chunks : List Chunk)
    (generate : String → Answer) : QueryResponse :=
  if (retrieved_chunks.length : Int) < config.min_chunks then
    .fallback_message retrievalFallbackMsg
  else
    let context := format_chunks_for_llm retrieved_chunks
    let answer := generate context
    if answer.confidence_score < config.confidence_threshold then
      .fallback_message generationFallbackMsg
    else
      .answer answer

/-! ## Config store (src/core/config_store.py)

The store is the module-global `_config_store : Optional[RAGConfig]`;
stateful code is embedded by explicit state passing.  `update_rag_config`
runs `_validate_config` *before* touching the store, so when validation
raises the store is left unchanged. -/

/-- src/core/config_store.py, `DEFAULT_CONFIG`. -/
def DEFAULT_CONFIG : RAGConfig :=
  { retrieval_top_k := 10, min_chunks := 2, confidence_threshold := 7/10,
    relevance_threshold := 5/10, max_context_length := 4000,
    temperature := 1/10, enable_fallback := true }

/-- src/core/config_store.py, `_validate_config`: the first violated bound
raises `ValueError` with its message; embedded as `Except`. -/
def validate_config (config : RAGConfig) : Except String Unit :=
  if config.retrieval_top_k < 1 then
    .error "retrieval_top_k must be at least 1"
  else if config.min_chunks < 1 then
    .error "min_chunks must be at least 1"
  else if ¬ (0 ≤ config.confidence_threshold ∧ config.confidence_threshold ≤ 1) then
    .error "confidence_threshold must be between 0.0 and 1.0"
  else if ¬ (0 ≤ config.relevance_threshold ∧ config.relevance_threshold ≤ 1) then
    .error "relevance_threshold must be between 0.0 and 1.0"
  else if config.max_context_length < 100 then
    .error "max_context_length must be at least 100"
  else if ¬ (0 ≤ config.temperature ∧ config.temperature ≤ 2) then
    .error "temperature must be between 0.0 and 2.0"
  else if config.min_chunks > config.retrieval_top_k then
    .error "min_chunks cannot be greater than retrieval_top_k"
  else .ok ()

/-- src/core/config_store.py, `get_rag_config`: returns the current config,
initialising the store with the defaults on first read.  Result: the new
store state and the returned config. -/
def get_rag_config (store : Option RAGConfig) : Option RAGConfig × RAGConfig :=
  match store with
  | none => (some DEFAULT_CONFIG, DEFAULT_CONFIG)
  | some c => (some c, c)

/-- src/core/config_store.py, `update_rag_config`: validate, then swap the
store.  Result: the new store state and the returned config or the raised
`ValueError` message.  When validation raises, the assignment
`_config_store = new_config.copy()` is never executed. -/
def update_rag_config (store : Option RAGConfig) (new_config : RAGConfig) :
    Option RAGConfig × Except String RAGConfig :=
  match validate_config new_config with
  | .error e => (store, .error e)
  | .ok _ => (some new_config, .ok new_config)

/-- The documented bounds of claim C6, written from the specification's
words (to be compared with `validate_config`). -/
def specConfigInBounds (c : RAGConfig) : Prop :=
  1 ≤ c.retrieval_top_k ∧ 1 ≤ c.min_chunks ∧
  0 ≤ c.confidence_threshold ∧ c.confidence_threshold ≤ 1 ∧
  0 ≤ c.relevance_threshold ∧ c.relevance_threshold ≤ 1 ∧
  100 ≤ c.max_context_length ∧
  0 ≤ c.temperature ∧ c.temperature ≤ 2 ∧
  c.min_chunks ≤ c.retrieval_top_k

instance (c : RAGConfig) : Decidable (specConfigInBounds c) := by
  unfold specConfigInBounds; infer_instance

/-! ## Answer-response validation (src/core/llm_client.py,
`LLMClient._validate_answer_response`)

The raw LLM response is a parsed-JSON Python value; `PyVal` models the value
universe that `json.loads` can produce.  Dicts are association lists (keys
unique, insertion-ordered).  Python exceptions inside the function body are
caught by its `except` clause and re-raised as `ValidationError`, so the
embedding returns `Except String Answer`. -/

/-- A Python value as produced by `json.loads` (plus `None`). -/
inductive PyVal where
  | pynone
  | pybool (b : Bool)
  | pyint (n : Int)
  | pyfloat (q : ℚ)
  | pystr (s : String)
  | pylist (xs : List PyVal)
  | pydict (kvs : List (String × PyVal))

/-- Python truthiness (`bool(v)`). -/
def pyTruthy : PyVal → Bool
  | .pynone => false
  | .pybool b => b
  | .pyint n => n ≠ 0
  | .pyfloat q => q ≠ 0
  | .pystr s => s ≠ ""
  | .pylist xs => ¬ xs.isEmpty
  | .pydict kvs => ¬ kvs.isEmpty

/-- `key in d` for a Python dict. -/
def dictContains (kvs : List (String × PyVal)) (key : String) : Bool :=
  (kvs.find? (fun p => p.1 = key)).isSome

/-- `d.get(key, default)` / `d[key]` for a present key. -/
def dictGetD (kvs : List (String × PyVal)) (key : String) (dflt : PyVal) :
    PyVal :=
  match kvs.find? (fun p => p.1 = key) with
  | some p => p.2
  | none => dflt

/-- `d[key] = v`: replace in place when the key exists, append otherwise
(Python dicts keep insertion order). -/
def dictSet (kvs : List (String × PyVal)) (key : String) (v : PyVal) :
    List (String × PyVal) :=
  if dictContains kvs key then
    kvs.map (fun p => if p.1 = key then (key, v) else p)
  else kvs ++ [(key, v)]

/-- `isinstance(v, (int, float))`.  Python's `bool` is a subclass of
`int`. -/
def pyIsNumber : PyVal → Bool
  | .pybool _ => true
  | .pyint _ => true
  | .pyfloat _ => true
  | _ => false

/-- The numeric value of an `int`/`float`/`bool` (0 for other values; only
read behind a `pyIsNumber` guard). -/
def pyNumVal : PyVal → ℚ
  | .pybool b => if b then 1 else 0
  | .pyint n => (n : ℚ)
  | .pyfloat q => q
  | _ => 0

/-- Truncation toward zero, the rounding of Python `int(float)`. -/
def pyTruncQ (q : ℚ) : Int :=
  if 0 ≤ q then ⌊q⌋ else ⌈q⌉

/-- Helper of `pyIntOfStr`: a non-empty all-digit string to its value. -/
def digitsToNat : List Char → Nat → Nat
  | [], acc => acc
  | c :: cs, acc => digitsToNat cs (acc * 10 + (c.toNat - 48))

/-- Python `int(s)` for a string: optional surrounding whitespace, an
optional sign, then one or more decimal digits (PEP-515 underscore grouping
is not reproduced; no claim touches it).  `ValueError` otherwise. -/
def pyIntOfStr (s : String) : Except String Int :=
  let t := stripList s.data
  let (sign, ds) : Int × List Char :=
    match t with
    | '-' :: rest => (-1, rest)
    | '+' :: rest => (1, rest)
    | rest => (1, rest)
  if ds ≠ [] ∧ ds.all (fun c => c.isDigit) then
    .ok (sign * (digitsToNat ds 0 : Int))
  else
    .error ("invalid literal for int() with base 10: " ++ s)

/-- Python `int(v)`: ints and bools pass through, floats truncate toward
zero, numeric strings parse, everything else raises
(`TypeError`/`ValueError`). -/
def pyIntOf : PyVal → Except String Int
  | .pybool b => .ok (if b then 1 else 0)
  | .pyint n => .ok n
  | .pyfloat q => .ok (pyTruncQ q)
  | .pystr s => pyIntOfStr s
  | .pynone => .error "int() argument must not be None"
  | .pylist _ => .error "int() argument must not be a list"
  | .pydict _ => .error "int() argument must not be a dict"

/-- Python `str(v)`.  `str` never raises; CPython's textual repr of floats
and containers is approximated (no claim depends on those cases). -/
def pyStrOf : PyVal → String
  | .pynone => "None"
  | .pybool b => if b then "True" else "False"
  | .pyint n => toString n
  | .pyfloat q => toString q
  | .pystr s => s
  | .pylist _ => "[...]"
  | .pydict _ => "\x7b...\x7d"

/-- Pydantic v1 coercion into a `str` field (`schemas.Answer.answer_summary`):
strings pass, numbers are coerced via `str`, `None` and containers raise
`ValidationError`. -/
def pydanticStr : PyVal → Except String String
  | .pystr s => .ok s
  | .pyint n => .ok (toString n)
  | .pyfloat q => .ok (toString q)
  | .pybool b => .ok (if b then "True" else "False")
  | _ => .error "str type expected"

/-- The per-claim step of the `for claim in claims` filter loop: `none` when
the claim is skipped, `some` when appended to `valid_claims`; the `int`
conversions can raise, which propagates out of the loop. -/
def validClaimStep (claim : PyVal) : Except String (Option Claim) :=
  match claim with
  | .pydict kvs =>
    if dictContains kvs "text" ∧ dictContains kvs "source_chunk_id" ∧
        dictContains kvs "page_number" then do
      let t := pyStrOf (dictGetD kvs "text" .pynone)
      let cid ← pyIntOf (dictGetD kvs "source_chunk_id" .pynone)
      let pg ← pyIntOf (dictGetD kvs "page_number" .pynone)
      pure (some ⟨t, cid, pg⟩)
    else pure none
  | _ => pure none

/-- Body of `_validate_answer_response` (inside its `try`). -/
def validateAnswerBody (answer_data : List (String × PyVal)) :
    Except String Answer := do
  let d1 := if dictContains answer_data "answer_summary" then answer_data
            else dictSet answer_data "answer_summary"
              (.pystr "No summary provided")
  let d2 := if dictContains d1 "claims" then d1
            else dictSet d1 "claims" (.pylist [])
  let d3 := if dictContains d2 "confidence_score" then d2
            else dictSet d2 "confidence_score" (.pyfloat 0)
  let confidence := dictGetD d3 "confidence_score" (.pyfloat 0)
  let d4 := if ¬ (pyIsNumber confidence ∧
                  0 ≤ pyNumVal confidence ∧ pyNumVal confidence ≤ 1) then
              dictSet d3 "confidence_score" (.pyfloat 0)
            else d3
  let claims := match dictGetD d4 "claims" (.pylist []) with
    | .pylist xs => xs
    | _ => []
  let opts ← claims.mapM validClaimStep
  let valid_claims := opts.reduceOption
  let summary ← pydanticStr (dictGetD d4 "answer_summary" .pynone)
  let conf := pyNumVal (dictGetD d4 "confidence_score" (.pyfloat 0))
  pure ⟨summary, valid_claims, conf⟩

/-- src/core/llm_client.py, `_validate_answer_response`: any exception in
the body is re-raised as `ValidationError("Answer validation failed: ...")`.
-/
def validate_answer_response (answer_data : List (String × PyVal)) :
    Except String Answer :=
  match validateAnswerBody answer_data with
  | .ok a => .ok a
  | .error e => .error ("Answer validation failed: " ++ e)

/-! ## Sanitizer (src/core/sanitizer.py, `TextSanitizer.sanitize_text_for_llm`)

`sanitize_text_for_llm` is orchestration: a guard for empty / non-string
input, six regex stages applied in a fixed order, two context-specific
stages, and `_final_cleanup`.  The claims settled here (C8, C10) depend only
on the guard, the stage ordering and `_final_cleanup`, so the regex stages
are abstracted as a `SanitizerStages` record of total functions
`text × changes → text × changes` — each Python stage is a loop of
`pattern.findall` / `pattern.sub` over precompiled patterns and cannot
raise, so totality is faithful; every theorem below holds for *every*
behaviour of those stages.  `_final_cleanup` is embedded concretely. -/

/-- The category-count map `changes_made` (a Python dict `str -> int`). -/
abbrev Changes := List (String × Int)

/-- `changes["insufficient_content"] = 1`-style assignment on the
category-count map. -/
def changesSet (ch : Changes) (key : String) (v : Int) : Changes :=
  if (ch.find? (fun p => p.1 = key)).isSome then
    ch.map (fun p => if p.1 = key then (key, v) else p)
  else ch ++ [(key, v)]

/-- One regex stage of the sanitizer: current text and accumulated
category counts in, rewritten text and updated counts out. -/
abbrev SanitizerStage := String → Changes → String × Changes

/-- The regex stages of `TextSanitizer`, in the order
`sanitize_text_for_llm` applies them. -/
structure SanitizerStages where
  sanitize_code_blocks : SanitizerStage
  sanitize_markdown : SanitizerStage
  sanitize_inline_code : SanitizerStage
  sanitize_instructions : SanitizerStage
  sanitize_malicious_patterns : SanitizerStage
  sanitize_structural_issues : SanitizerStage
  sanitize_toc_specific : SanitizerStage
  sanitize_index_specific : SanitizerStage

/-- Keep at most the first `keep` characters of every maximal run of
`target`; character-level model of the `re.sub` calls
`re.sub("\n" ++ "\x7b3,\x7d", two newlines, text)` (runs of ≥ 3 newlines
become 2, i.e. keep 2) and `re.sub(" \x7b2,\x7d", " ", text)` (runs of ≥ 2
spaces become 1, i.e. keep 1) in `_final_cleanup`.  `seen` counts the length
of the current run already processed. -/
def pyCollapseRuns (target : Char) (keep : Nat) : Nat → List Char → List Char
  | _, [] => []
  | seen, c :: cs =>
    if c = target then
      (if seen < keep then [c] else []) ++ pyCollapseRuns target keep (seen + 1) cs
    else c :: pyCollapseRuns target keep 0 cs

/-- The wholesale replacement text for too-short results. -/
def contentTooShortMarker : String := "[CONTENT_TOO_SHORT]"

/-- src/core/sanitizer.py, `TextSanitizer._final_cleanup`: collapse newline
and space runs, strip, and replace the whole text with
`[CONTENT_TOO_SHORT]` when fewer than 10 characters remain (recording
`insufficient_content`). -/
def final_cleanup (text : String) (changes : Changes) : String × Changes :=
  let t1 := String.mk (pyCollapseRuns '\n' 2 0 text.data)
  let t2 := String.mk (pyCollapseRuns ' ' 1 0 t1.data)
  let t3 := pyStrip t2
  if pyLen t3 < 10 then
    (contentTooShortMarker, changesSet changes "insufficient_content" 1)
  else
    (t3, changes)

/-- src/core/sanitizer.py, `SanitizationResult`.  The dataclass is not
type-enforced: when the guard path fires on a truthy non-string input,
`original_text`/`sanitized_text` hold that non-string value (`text or ""`),
hence the `PyVal`-typed fields. -/
structure SanitizationResult where
  original_text : PyVal
  sanitized_text : PyVal
  changes_made : Changes
  is_modified : Bool

/-- src/core/sanitizer.py, `TextSanitizer.sanitize_text_for_llm`.  The
guard `if not text or not isinstance(text, str)` returns
`text or ""` unchanged with an empty change map; otherwise the stages run
in their fixed order, context-specific rules apply for the `"toc"` and
`"index"` contexts, `_final_cleanup` runs last, and `is_modified` is the
before/after inequality check. -/
def sanitize_text_for_llm (st : SanitizerStages) (text : PyVal)
    (context : String) : SanitizationResult :=
  match text with
  | .pystr s =>
    if s = "" then ⟨.pystr "", .pystr "", [], false⟩
    else
      let r1 := st.sanitize_code_blocks s []
      let r2 := st.sanitize_markdown r1.1 r1.2
      let r3 := st.sanitize_inline_code r2.1 r2.2
      let r4 := st.sanitize_instructions r3.1 r3.2
      let r5 := st.sanitize_malicious_patterns r4.1 r4.2
      let r6 := st.sanitize_structural_issues r5.1 r5.2
      let r7 :=
        if context = "toc" then st.sanitize_toc_specific r6.1 r6.2
        else if context = "index" then st.sanitize_index_specific r6.1 r6.2
        else r6
      let r8 := final_cleanup r7.1 r7.2
      ⟨.pystr s, .pystr r8.1, r8.2, decide (r8.1 ≠ s)⟩
  | v =>
    let orEmpty := if pyTruthy v then v else .pystr ""
    ⟨orEmpty, orEmpty, [], false⟩

/-! ## Semantic chunker (src/agents/parser.py, `_perform_semantic_chunking`)

The function splits the text on `"\n\n"`, strips and drops empty
paragraphs, then greedily accumulates paragraphs into `current_chunk`,
closing a chunk whenever appending the next paragraph would push it past
`chunk_size` and seeding the next chunk with the last ~50 words of the
previous one.  (The `overlap` parameter of the source is unused by its
body.)  The loop is embedded as a `foldl` over an explicit state. -/

/-- A chunk dict produced by the parser:
`{"chunk_text": ..., "page_number": ..., "chunk_order": ...}`. -/
structure ChunkDict where
  chunk_text : String
  page_number : Int
  chunk_order : Int
deriving DecidableEq, Repr

/-- Python `str.split()` with no argument at the character-list level:
maximal runs of non-whitespace characters, in order; no empty pieces.
`acc` holds the reversed current word. -/
def splitWsAux : List Char → List Char → List (List Char)
  | [], acc => if acc.isEmpty then [] else [acc.reverse]
  | c :: cs, acc =>
    if pyIsSpace c then
      (if acc.isEmpty then [] else [acc.reverse]) ++ splitWsAux cs []
    else splitWsAux cs (c :: acc)

/-- Python `current_chunk.split()`. -/
def pySplitWs (s : String) : List (List Char) :=
  splitWsAux s.data []

/-- Python `l[-n:]`: the last `min(n, len(l))` elements. -/
def pyLastSlice (n : Nat) (l : List (List Char)) : List (List Char) :=
  l.drop (l.length - n)

/-- Python `" ".join(words)` at the character-list level. -/
def joinSpaceL : List (List Char) → List Char
  | [] => []
  | [w] => w
  | w :: ws => w ++ ' ' :: joinSpaceL ws

/-- First match of the regex `\[PAGE (\d+)\]` anchored at the start of
`l`: the literal `"[PAGE "`, one or more digits (greedy — no backtracking
can succeed because `]` is not a digit), then `]`. -/
def matchPageMarkerAt (l : List Char) : Option Int :=
  if l.take 6 = "[PAGE ".data then
    let rest := l.drop 6
    let ds := rest.takeWhile Char.isDigit
    if ¬ ds.isEmpty ∧ (rest.drop ds.length).head? = some ']' then
      some (digitsToNat ds 0 : Int)
    else none
  else none

/-- src/agents/parser.py, `_extract_page_number_from_paragraph`:
`re.search` scans left to right for the first position where
`\[PAGE (\d+)\]` matches; `int` of a digit string cannot raise. -/
def extract_page_number_from_paragraph (paragraph : String) : Option Int :=
  let rec go : List Char → Option Int
    | [] => none
    | c :: cs =>
      match matchPageMarkerAt (c :: cs) with
      | some n => some n
      | none => go cs
  go paragraph.data

/-- The loop state of `_perform_semantic_chunking`. -/
structure ChunkState where
  chunks : List ChunkDict
  current_chunk : String
  current_page : Int
  chunk_order : Int

/-- One iteration of the `for paragraph in paragraphs` loop.  Note
`if page_num:` — a page number of `0` is falsy and does not update
`current_page`, and the paragraph that triggers closing a chunk is *not*
part of that chunk. -/
def processParagraph (chunk_size : Int) (st : ChunkState)
    (paragraph : String) : ChunkState :=
  let current_page :=
    match extract_page_number_from_paragraph paragraph with
    | some n => if n ≠ 0 then n else st.current_page
    | none => st.current_page
  if (pyLen (st.current_chunk ++ paragraph) : Int) > chunk_size ∧
      st.current_chunk ≠ "" then
    let chunk : ChunkDict :=
      ⟨pyStrip st.current_chunk, current_page, st.chunk_order⟩
    let words := pySplitWs st.current_chunk
    let newCurrent :=
      if words.length > 10 then
        String.mk (joinSpaceL (pyLastSlice 50 words)) ++ " " ++ paragraph
      else paragraph
    ⟨st.chunks ++ [chunk], newCurrent, current_page, st.chunk_order + 1⟩
  else
    let newCurrent :=
      if st.current_chunk ≠ "" then st.current_chunk ++ "\n\n" ++ paragraph
      else paragraph
    ⟨st.chunks, newCurrent, current_page, st.chunk_order⟩

/-- Python `text.split("\n\n")` at the character-list level: split on each
non-overlapping, leftmost occurrence of two consecutive newlines.  `acc`
holds the reversed current piece. -/
def splitNN : List Char → List Char → List (List Char)
  | [], acc => [acc.reverse]
  | '\n' :: '\n' :: rest, acc => acc.reverse :: splitNN rest []
  | c :: rest, acc => splitNN rest (c :: acc)

/-- The paragraph list
`[p.strip() for p in text.split("\n\n") if p.strip()]`. -/
def paragraphsOf (text : String) : List String :=
  (((splitNN text.data []).map (fun l => String.mk l)).map pyStrip).filter
    (fun p => p ≠ "")

/-- src/agents/parser.py, `_perform_semantic_chunking`. -/
def perform_semantic_chunking (text : String) (chunk_size : Int := 1000)
    (overlap : Int := 200) : List ChunkDict :=
  let _ := overlap   -- the source declares `overlap=200` but never reads it
  let final :=
    (paragraphsOf text).foldl (processParagraph chunk_size) ⟨[], "", 1, 0⟩
  if pyStrip final.current_chunk ≠ "" then
    final.chunks ++
      [⟨pyStrip final.current_chunk, final.current_page, final.chunk_order⟩]
  else final.chunks

/-! ## Concrete instances used by witnesses and counterexamples -/

/-- A do-nothing regex stage (used to instantiate `SanitizerStages` in
closed instances; the sanitizer theorems hold for every stage record). -/
def idStage : SanitizerStage := fun t ch => (t, ch)

/-- A concrete `SanitizerStages` record made of do-nothing stages. -/
def trivialStages : SanitizerStages :=
  ⟨idStage, idStage, idStage, idStage, idStage, idStage, idStage, idStage⟩

/-- The raw response of the repository's own
`test_validate_answer_response_invalid_claims` (tests/test_llm_client.py):
one well-formed claim, one claim missing every required field.  (The test
uses confidence 0.8; the value 1.0 is used here so the instance evaluates
inside the kernel — the confidence plays no role in the claim.) -/
def answerDataMissingFieldClaim : List (String × PyVal) :=
  [("answer_summary", .pystr "Test"),
   ("claims", .pylist
     [.pydict [("text", .pystr "Valid claim"), ("source_chunk_id", .pyint 123),
               ("page_number", .pyint 5)],
      .pydict [("invalid", .pystr "claim")]]),
   ("confidence_score", .pyfloat 1)]

/-- The same response with the test's third claim added: all required
fields present but `source_chunk_id` is the non-numeric string
`"invalid"`. -/
def answerDataNonNumericId : List (String × PyVal) :=
  [("answer_summary", .pystr "Test"),
   ("claims", .pylist
     [.pydict [("text", .pystr "Valid claim"), ("source_chunk_id", .pyint 123),
               ("page_number", .pyint 5)],
      .pydict [("invalid", .pystr "claim")],
      .pydict [("text", .pystr "Another"),
               ("source_chunk_id", .pystr "invalid"),
               ("page_number", .pyint 10)]]),
   ("confidence_score", .pyfloat 1)]

/-- Verification predicate: `q` occurs whole (as a contiguous substring)
in the chunker state — inside an already-closed chunk or inside the
accumulating `current_chunk`. -/
def heldIn (st : ChunkState) (q : String) : Prop :=
  (∃ c ∈ st.chunks, List.IsInfix q.data c.chunk_text.data) ∨
  (st.current_chunk ≠ "" ∧ List.IsInfix q.data st.current_chunk.data)

/-! ## Lemmas about `stripList` / `pyStrip` -/

theorem stripList_append_aux (l : List Char) :
    ∃ t : List Char, stripList l ++ t = l.dropWhile pyIsSpace := by
  obtain ⟨u, hu⟩ :=
    List.dropWhile_suffix (l := (l.dropWhile pyIsSpace).reverse) pyIsSpace
  refine ⟨u.reverse, ?_⟩
  have h2 := congrArg List.reverse hu
  simp only [List.reverse_append, List.reverse_reverse] at h2
  exact h2

theorem stripList_head?_not {l : List Char} {c : Char}
    (h : (stripList l).head? = some c) : pyIsSpace c = false := by
  obtain ⟨t, ht⟩ := stripList_append_aux l
  have hdw : (l.dropWhile pyIsSpace).head? = some c := by
    rw [← ht, List.head?_append, h]
    rfl
  have h3 := List.head?_dropWhile_not pyIsSpace l
  rw [hdw] at h3
  exact h3

theorem stripList_getLast?_not {l : List Char} {c : Char}
    (h : (stripList l).getLast? = some c) : pyIsSpace c = false := by
  have hne : stripList l ≠ [] := by
    intro hnil; rw [hnil] at h; simp at h
  have hlast := List.rdropWhile_last_not pyIsSpace (l.dropWhile pyIsSpace) hne
  have h4 := List.getLast?_eq_getLast (stripList l) hne
  rw [h4] at h
  have hc : (stripList l).getLast hne = c := Option.some_inj.mp h
  rw [← hc]
  simpa using hlast

theorem stripList_eq_self {l : List Char}
    (h1 : ∀ c, l.head? = some c → pyIsSpace c = false)
    (h2 : ∀ c, l.getLast? = some c → pyIsSpace c = false) :
    stripList l = l := by
  have hd : l.dropWhile pyIsSpace = l := by
    cases l with
    | nil => rfl
    | cons a rest =>
      have ha : pyIsSpace a = false := h1 a rfl
      simp [List.dropWhile_cons, ha]
  have hr : l.rdropWhile pyIsSpace = l := by
    rw [List.rdropWhile_eq_self_iff]
    intro hl
    have h4 := List.getLast?_eq_getLast l hl
    have h5 := h2 _ h4
    simp [h5]
  rw [stripList, hd, hr]

theorem stripList_idem (l : List Char) :
    stripList (stripList l) = stripList l :=
  stripList_eq_self (fun _ h => stripList_head?_not h)
    (fun _ h => stripList_getLast?_not h)

theorem pyStrip_data (s : String) : (pyStrip s).data = stripList s.data := rfl

theorem pyStrip_idem (s : String) : pyStrip (pyStrip s) = pyStrip s :=
  String.ext (by rw [pyStrip_data, pyStrip_data, stripList_idem])

/-! ## Lemmas about the RRF embedding -/

theorem dictLookup_eq_none_iff {l : List (Int × ℚ)} {id : Int} :
    dictLookup l id = none ↔ id ∉ l.map Prod.fst := by
  induction l with
  | nil => simp [dictLookup]
  | cons p rest ih =>
    cases hrest : dictLookup rest id with
    | some s =>
      have hidin : id ∈ rest.map Prod.fst := by
        by_contra hno
        have hcontra := ih.mpr hno
        rw [hrest] at hcontra
        exact Option.noConfusion hcontra
      simp [dictLookup, hrest, hidin]
    | none =>
      have hnotin : id ∉ rest.map Prod.fst := ih.mp hrest
      by_cases hp : p.1 = id
      · simp [dictLookup, hrest, hp]
      · simp [dictLookup, hrest, hp, hnotin, Ne.symm hp]

theorem dictLookup_of_nodup {l : List (Int × ℚ)}
    (hnd : (l.map Prod.fst).Nodup) {id : Int} {s : ℚ} (hmem : (id, s) ∈ l) :
    dictLookup l id = some s := by
  induction l with
  | nil => simp at hmem
  | cons p rest ih =>
    rw [List.map_cons, List.nodup_cons] at hnd
    rcases List.mem_cons.mp hmem with hp | hrest
    · have hid : p.1 = id := by rw [← hp]
      have hnone : dictLookup rest id = none :=
        dictLookup_eq_none_iff.mpr (by rw [← hid]; exact hnd.1)
      simp [dictLookup, hnone, hid, ← hp]
    · have hlook := ih hnd.2 hrest
      simp [dictLookup, hlook]

theorem indexOf_pair_eq {l : List (Int × ℚ)}
    (hnd : (l.map Prod.fst).Nodup) {id : Int} {s : ℚ} (hmem : (id, s) ∈ l) :
    l.indexOf (id, s) = (l.map Prod.fst).indexOf id := by
  induction l with
  | nil => simp at hmem
  | cons p rest ih =>
    have hnd' := hnd
    rw [List.map_cons, List.nodup_cons] at hnd'
    rcases List.mem_cons.mp hmem with hp | hrest
    · rw [← hp, List.map_cons, List.indexOf_cons, List.indexOf_cons]
      simp
    · have hid_rest : id ∈ rest.map Prod.fst :=
        List.mem_map.mpr ⟨(id, s), hrest, rfl⟩
      have hp1 : p.1 ≠ id := fun he => hnd'.1 (he ▸ hid_rest)
      have hpne : p ≠ (id, s) := fun he => hp1 (by rw [he])
      rw [List.map_cons, List.indexOf_cons, List.indexOf_cons]
      simp only [beq_iff_eq, hpne, hp1, cond_false, Bool.cond_eq_ite, if_neg]
      rw [ih hnd'.2 hrest]

theorem rrfContribution_eq {l : List (Int × ℚ)}
    (hnd : (l.map Prod.fst).Nodup) (k : Int) (id : Int) :
    rrfContribution l k id =
      if id ∈ l.map Prod.fst
        then 1 / ((k : ℚ) + (((l.map Prod.fst).indexOf id : ℚ) + 1)) else 0 := by
  by_cases hid : id ∈ l.map Prod.fst
  · obtain ⟨p, hpmem, hpfst⟩ := List.mem_map.mp hid
    obtain ⟨i, s⟩ := p
    have hs : (id, s) ∈ l := by
      simp only at hpfst
      rw [← hpfst]
      exact hpmem
    have hl := dictLookup_of_nodup hnd hs
    have hidx := indexOf_pair_eq hnd hs
    simp [rrfContribution, hl, pyIndex, hidx, hid]
  · have hl : dictLookup l id = none := dictLookup_eq_none_iff.mpr hid
    simp [rrfContribution, hl, hid]

theorem rrfScore_eq_spec {lex vec : List (Int × ℚ)}
    (hlex : (lex.map Prod.fst).Nodup) (hvec : (vec.map Prod.fst).Nodup)
    (k : Int) (id : Int) :
    rrfScore lex vec k id = specRrfScore lex vec k id := by
  rw [rrfScore, specRrfScore, rrfContribution_eq hlex, rrfContribution_eq hvec]

theorem rrf_perm (lex vec : List (Int × ℚ)) (k : Int) (enum : List Int) :
    List.Perm (reciprocal_rank_fusion lex vec k enum)
      (enum.map (fun id => (id, rrfScore lex vec k id))) :=
  List.perm_insertionSort scoreGe _

theorem mem_rrf {lex vec : List (Int × ℚ)} {k : Int} {enum : List Int}
    {p : Int × ℚ} :
    p ∈ reciprocal_rank_fusion lex vec k enum ↔
      ∃ id ∈ enum, p = (id, rrfScore lex vec k id) := by
  rw [(rrf_perm lex vec k enum).mem_iff]
  simp only [List.mem_map]
  constructor
  · rintro ⟨id, hid, rfl⟩; exact ⟨id, hid, rfl⟩
  · rintro ⟨id, hid, rfl⟩; exact ⟨id, hid, rfl⟩

theorem rrf_keys_perm (lex vec : List (Int × ℚ)) (k : Int) (enum : List Int) :
    List.Perm ((reciprocal_rank_fusion lex vec k enum).map Prod.fst) enum := by
  have h := (rrf_perm lex vec k enum).map Prod.fst
  simpa [List.map_map, Function.comp_def] using h

/-- C3: for duplicate-free input lists, the fused score of every output
entry equals the specification's `Σ 1/(k + rank)` (with `k = 60`, a list not
containing the chunk id contributing 0), the output's chunk ids are exactly
the distinct ids of either input list, and the output is sorted by
descending fused score. -/
theorem rrf_fused_scores_and_order (lex vec : List (Int × ℚ))
    (enum : List Int)
    (hlex : (lex.map Prod.fst).Nodup) (hvec : (vec.map Prod.fst).Nodup)
    (henum : validEnum lex vec enum) :
    (∀ id : Int, id ∈ (reciprocal_rank_fusion lex vec 60 enum).map Prod.fst ↔
        (id ∈ lex.map Prod.fst ∨ id ∈ vec.map Prod.fst)) ∧
    (∀ p ∈ reciprocal_rank_fusion lex vec 60 enum,
        p.2 = specRrfScore lex vec 60 p.1) ∧
    (reciprocal_rank_fusion lex vec 60 enum).Pairwise scoreGe := by
  refine ⟨?_, ?_, ?_⟩
  · intro id
    rw [(rrf_keys_perm lex vec 60 enum).mem_iff]
    exact henum.2 id
  · intro p hp
    obtain ⟨id, _, rfl⟩ := mem_rrf.mp hp
    simpa using rrfScore_eq_spec hlex hvec 60 id
  · exact List.sorted_insertionSort scoreGe _

/-- Witness for C3 at the concrete input
`lexical = [(1, 0.8)]`, `vector = [(2, 0.9)]`, enumeration `[1, 2]`. -/
theorem rrf_fused_scores_and_order_witness :
    (∀ id : Int,
        id ∈ (reciprocal_rank_fusion [(1, 8/10)] [(2, 9/10)] 60 [1, 2]).map
          Prod.fst ↔
        (id ∈ ([(1, 8/10)] : List (Int × ℚ)).map Prod.fst ∨
         id ∈ ([(2, 9/10)] : List (Int × ℚ)).map Prod.fst)) ∧
    (∀ p ∈ reciprocal_rank_fusion [(1, 8/10)] [(2, 9/10)] 60 [1, 2],
        p.2 = specRrfScore [(1, 8/10)] [(2, 9/10)] 60 p.1) ∧
    (reciprocal_rank_fusion [(1, 8/10)] [(2, 9/10)] 60 [1, 2]).Pairwise
      scoreGe :=
  rrf_fused_scores_and_order [(1, 8/10)] [(2, 9/10)] [1, 2]
    (by simp) (by simp) ⟨by simp, by intro id; simp⟩

/-- C4 counterexample: with lexical list `[(8, 0.8)]`, vector list
`[(0, 0.9)]` and the union-set enumeration `[8, 0]` (the order CPython's
hash table actually yields for these ids: 8 hashes to slot 0 of the small
table, 0 collides and is probed to a later slot), both ids receive the equal
fused score `1/61`, yet the output places id `8` before id `0` — the tie is
not broken by ascending chunk id. -/
theorem rrf_tie_order_counterexample :
    validEnum [((8 : Int), 4/5)] [((0 : Int), 9/10)] [8, 0] ∧
    reciprocal_rank_fusion [((8 : Int), 4/5)] [((0 : Int), 9/10)] 60 [8, 0] =
      [(8, 1/61), (0, 1/61)] ∧
    ¬ ((8 : Int) ≤ 0) := by
  have h8 : rrfScore [((8 : Int), 4/5)] [((0 : Int), 9/10)] 60 8 = 1/61 := by
    simp [rrfScore, rrfContribution, dictLookup, pyIndex, List.indexOf_cons]
    norm_num
  have h0 : rrfScore [((8 : Int), 4/5)] [((0 : Int), 9/10)] 60 0 = 1/61 := by
    simp [rrfScore, rrfContribution, dictLookup, pyIndex, List.indexOf_cons]
    norm_num
  refine ⟨⟨by simp, by intro id; simp⟩, ?_, by norm_num⟩
  rw [reciprocal_rank_fusion, sortByScoreDesc]
  simp only [List.map_cons, List.map_nil, h8, h0]
  simp [List.insertionSort, List.orderedInsert, scoreGe]

/-- C4, amended: equal-scored chunk ids appear in the fused output in the
order of the union-set enumeration (Python's `sorted` is stable and keys
only on the score); no chunk-id tie-break is applied. -/
theorem rrf_ties_follow_enumeration (lex vec : List (Int × ℚ)) (k : Int)
    (enum : List Int) (c d : Int)
    (hsub : List.Sublist [c, d] enum)
    (heq : rrfScore lex vec k c = rrfScore lex vec k d) :
    List.Sublist [(c, rrfScore lex vec k c), (d, rrfScore lex vec k d)]
      (reciprocal_rank_fusion lex vec k enum) := by
  have hmap : List.Sublist
      [(c, rrfScore lex vec k c), (d, rrfScore lex vec k d)]
      (enum.map (fun id => (id, rrfScore lex vec k id))) := by
    have h := hsub.map (fun id => (id, rrfScore lex vec k id))
    simpa using h
  have hr : scoreGe (c, rrfScore lex vec k c) (d, rrfScore lex vec k d) := by
    simp [scoreGe, heq]
  exact List.pair_sublist_insertionSort hr hmap

/-- Witness for the amended C4 at `lexical = [(8, 0.8)]`,
`vector = [(0, 0.9)]`, enumeration `[8, 0]`. -/
theorem rrf_ties_follow_enumeration_witness :
    List.Sublist
      [((8 : Int), rrfScore [((8 : Int), 4/5)] [((0 : Int), 9/10)] 60 8),
       ((0 : Int), rrfScore [((8 : Int), 4/5)] [((0 : Int), 9/10)] 60 0)]
      (reciprocal_rank_fusion [((8 : Int), 4/5)] [((0 : Int), 9/10)] 60
        [8, 0]) :=
  rrf_ties_follow_enumeration [(8, 4/5)] [(0, 9/10)] 60 [8, 0] 8 0
    (List.Sublist.refl _)
    (by simp [rrfScore, rrfContribution, dictLookup, pyIndex,
          List.indexOf_cons])

theorem sorted_keys_position_lt {l : List (Int × ℚ)}
    (hnd : (l.map Prod.fst).Nodup) (hsorted : l.Pairwise scoreGe)
    {c d : Int} {sc sd : ℚ} (hc : (c, sc) ∈ l) (hd : (d, sd) ∈ l)
    (hlt : sd < sc) :
    (l.map Prod.fst).indexOf c < (l.map Prod.fst).indexOf d := by
  induction l with
  | nil => simp at hc
  | cons x rest ih =>
    rw [List.map_cons, List.nodup_cons] at hnd
    have hpw := List.pairwise_cons.mp hsorted
    rcases List.mem_cons.mp hc with hxc | hc_rest
    · have hx1 : x.1 = c := by rw [← hxc]
      have hcd : c ≠ d := by
        intro he
        rcases List.mem_cons.mp hd with h | h
        · rw [← hxc] at h
          have hsds : sd = sc := congrArg Prod.snd h
          exact absurd hsds (ne_of_lt hlt)
        · exact hnd.1 (hx1 ▸ (he ▸ List.mem_map.mpr ⟨(d, sd), h, rfl⟩))
      rw [List.map_cons, List.indexOf_cons, List.indexOf_cons, hx1]
      rw [Bool.cond_eq_ite, Bool.cond_eq_ite, if_pos (by simp),
        if_neg (by simp [hcd])]
      exact Nat.succ_pos _
    · have hxd : x ≠ (d, sd) := by
        intro he
        have hge := hpw.1 (c, sc) hc_rest
        rw [he] at hge
        exact absurd hge (by simp [scoreGe]; linarith)
      have hd_rest : (d, sd) ∈ rest := by
        rcases List.mem_cons.mp hd with h | h
        · exact absurd h.symm hxd
        · exact h
      have hx1c : x.1 ≠ c :=
        fun he => hnd.1 (he ▸ List.mem_map.mpr ⟨(c, sc), hc_rest, rfl⟩)
      have hx1d : x.1 ≠ d :=
        fun he => hnd.1 (he ▸ List.mem_map.mpr ⟨(d, sd), hd_rest, rfl⟩)
      rw [List.map_cons, List.indexOf_cons, List.indexOf_cons]
      rw [Bool.cond_eq_ite, Bool.cond_eq_ite, if_neg (by simp [hx1c]),
        if_neg (by simp [hx1d])]
      exact Nat.succ_lt_succ (ih hnd.2 hpw.2 hc_rest hd_rest)

/-- C5: a chunk id `c` present in both input lists strictly outranks a
chunk id `d` present in only one list at the same respective rank.  Note on
the reading of "at the same respective rank": a single list position can
hold only one id, so `d`'s rank in its sole list is compared with `c`'s
rank in the *other* list (0-based position `i`, 1-based rank `i + 1`); this
covers every configuration the claim quantifies over, with no constraint on
`c`'s second rank.  `c`'s score then contains `d`'s whole score as one
summand plus a strictly positive second summand, so `c`'s fused score is
strictly greater, and `c` is placed strictly earlier in the fused
output. -/
theorem rrf_both_lists_beat_single (lex vec : List (Int × ℚ))
    (enum : List Int) (c d : Int) (i : Nat)
    (hlex : (lex.map Prod.fst).Nodup) (hvec : (vec.map Prod.fst).Nodup)
    (henum : validEnum lex vec enum)
    (hclex : c ∈ lex.map Prod.fst) (hcvec : c ∈ vec.map Prod.fst)
    (hd : (d ∈ lex.map Prod.fst ∧ (lex.map Prod.fst).indexOf d = i ∧
             d ∉ vec.map Prod.fst ∧ (lex.map Prod.fst).indexOf c ≠ i ∧
             (vec.map Prod.fst).indexOf c = i) ∨
          (d ∈ vec.map Prod.fst ∧ (vec.map Prod.fst).indexOf d = i ∧
             d ∉ lex.map Prod.fst ∧ (vec.map Prod.fst).indexOf c ≠ i ∧
             (lex.map Prod.fst).indexOf c = i)) :
    rrfScore lex vec 60 d < rrfScore lex vec 60 c ∧
    ((reciprocal_rank_fusion lex vec 60 enum).map Prod.fst).indexOf c <
      ((reciprocal_rank_fusion lex vec 60 enum).map Prod.fst).indexOf d := by
  have hposgen : ∀ n : Nat, (0 : ℚ) < 1 / ((60 : ℚ) + ((n : ℚ) + 1)) := by
    intro n; positivity
  have hlt : rrfScore lex vec 60 d < rrfScore lex vec 60 c := by
    rw [rrfScore_eq_spec hlex hvec, rrfScore_eq_spec hlex hvec, specRrfScore,
      specRrfScore]
    rcases hd with ⟨hdl, hdi, hdnv, _, hci⟩ | ⟨hdv, hdi, hdnl, _, hci⟩
    · rw [if_pos hdl, if_neg hdnv, if_pos hclex, if_pos hcvec, hdi, hci,
        add_zero]
      have h1 := hposgen ((lex.map Prod.fst).indexOf c)
      push_cast
      push_cast at h1
      linarith
    · rw [if_neg hdnl, if_pos hdv, if_pos hclex, if_pos hcvec, hdi, hci,
        zero_add]
      have h1 := hposgen ((vec.map Prod.fst).indexOf c)
      push_cast
      push_cast at h1
      linarith
  refine ⟨hlt, ?_⟩
  have hd_mem : d ∈ enum := by
    rcases hd with ⟨hdl, _⟩ | ⟨hdv, _⟩
    · exact (henum.2 d).mpr (Or.inl hdl)
    · exact (henum.2 d).mpr (Or.inr hdv)
  have hc_out : (c, rrfScore lex vec 60 c) ∈
      reciprocal_rank_fusion lex vec 60 enum :=
    mem_rrf.mpr ⟨c, (henum.2 c).mpr (Or.inl hclex), rfl⟩
  have hd_out : (d, rrfScore lex vec 60 d) ∈
      reciprocal_rank_fusion lex vec 60 enum :=
    mem_rrf.mpr ⟨d, hd_mem, rfl⟩
  have hnd_out : ((reciprocal_rank_fusion lex vec 60 enum).map
      Prod.fst).Nodup :=
    ((rrf_keys_perm lex vec 60 enum).nodup_iff).mpr henum.1
  exact sorted_keys_position_lt hnd_out
    (List.sorted_insertionSort scoreGe _) hc_out hd_out hlt

/-- Witness for C5: `lexical = [(9, 0.9)]`, `vector = [(7, 0.7), (9, 0.6)]`,
enumeration `[9, 7]`; id 9 is in both lists, id 7 only in the vector list at
position 0, the position of id 9 in the lexical list. -/
theorem rrf_both_lists_beat_single_witness :
    rrfScore [((9 : Int), 9/10)] [((7 : Int), 7/10), (9, 6/10)] 60 7 <
      rrfScore [((9 : Int), 9/10)] [((7 : Int), 7/10), (9, 6/10)] 60 9 ∧
    ((reciprocal_rank_fusion [((9 : Int), 9/10)]
        [((7 : Int), 7/10), (9, 6/10)] 60 [9, 7]).map Prod.fst).indexOf 9 <
      ((reciprocal_rank_fusion [((9 : Int), 9/10)]
        [((7 : Int), 7/10), (9, 6/10)] 60 [9, 7]).map Prod.fst).indexOf 7 :=
  rrf_both_lists_beat_single [(9, 9/10)] [(7, 7/10), (9, 6/10)] [9, 7] 9 7 0
    (by simp) (by simp) ⟨by simp, by intro id; simp; tauto⟩
    (by simp) (by simp)
    (Or.inr ⟨by simp, by simp [List.indexOf_cons], by simp,
      by simp [List.indexOf_cons], by simp [List.indexOf_cons]⟩)

/-! ## Gate theorems (src/main.py, `query_books`) -/

/-- C1: when fewer than `min_chunks` chunks were retrieved, `query_books`
returns the retrieval fallback message and the generator is never
consulted (the result is the same for every generator); when at least
`min_chunks` chunks were retrieved, the pipeline proceeds to generation and
the result is the Generation Gate's verdict on the generated answer.  In
particular with `min_chunks = 2`: one retrieved chunk always falls back,
two always proceed to generation. -/
theorem retrieval_gate (config : RAGConfig) (retrieved_chunks : List Chunk)
    (generate : String → Answer) :
    ((retrieved_chunks.length : Int) < config.min_chunks →
      query_books config retrieved_chunks generate =
        .fallback_message retrievalFallbackMsg ∧
      ∀ generate' : String → Answer,
        query_books config retrieved_chunks generate =
          query_books config retrieved_chunks generate') ∧
    (config.min_chunks ≤ (retrieved_chunks.length : Int) →
      query_books config retrieved_chunks generate =
        (if (generate (format_chunks_for_llm
              retrieved_chunks)).confidence_score <
            config.confidence_threshold then
          .fallback_message generationFallbackMsg
        else .answer (generate (format_chunks_for_llm retrieved_chunks)))) ∧
    (config.min_chunks = 2 → retrieved_chunks.length = 1 →
      query_books config retrieved_chunks generate =
        .fallback_message retrievalFallbackMsg) ∧
    (config.min_chunks = 2 → retrieved_chunks.length = 2 →
      query_books config retrieved_chunks generate =
        (if (generate (format_chunks_for_llm
              retrieved_chunks)).confidence_score <
            config.confidence_threshold then
          .fallback_message generationFallbackMsg
        else .answer (generate (format_chunks_for_llm retrieved_chunks)))) := by
  refine ⟨?_, ?_, ?_, ?_⟩
  · intro hlt
    constructor
    · rw [query_books, if_pos hlt]
    · intro g'
      rw [query_books, if_pos hlt, query_books, if_pos hlt]
  · intro hge
    rw [query_books, if_neg (by omega)]
  · intro hmin hlen
    rw [query_books, if_pos (by rw [hmin, hlen]; norm_num)]
  · intro hmin hlen
    rw [query_books, if_neg (by rw [hmin, hlen]; norm_num)]

/-- Witness for C1 with the default configuration (`min_chunks = 2`) and a
single retrieved chunk. -/
theorem retrieval_gate_witness :
    query_books {} [⟨1, 1, "chunk one"⟩] (fun _ => ⟨"s", [], 1⟩) =
      .fallback_message retrievalFallbackMsg :=
  ((retrieval_gate {} [⟨1, 1, "chunk one"⟩] (fun _ => ⟨"s", [], 1⟩)).2.2.1
    rfl rfl)

/-- C2: once generation has run, a validated answer whose confidence equals
`confidence_threshold` is returned as the structured answer (the boundary is
inclusive on the pass side), one strictly below the threshold is replaced by
the fixed generation fallback message, and exactly one of the two outcomes
occurs. -/
theorem generation_gate_boundary (config : RAGConfig)
    (retrieved_chunks : List Chunk) (a : Answer)
    (hlen : config.min_chunks ≤ (retrieved_chunks.length : Int)) :
    (a.confidence_score = config.confidence_threshold →
      query_books config retrieved_chunks (fun _ => a) = .answer a) ∧
    (a.confidence_score < config.confidence_threshold →
      query_books config retrieved_chunks (fun _ => a) =
        .fallback_message generationFallbackMsg) ∧
    ((query_books config retrieved_chunks (fun _ => a) = .answer a) ↔
      ¬ (query_books config retrieved_chunks (fun _ => a) =
          .fallback_message generationFallbackMsg)) := by
  have hbase : query_books config retrieved_chunks (fun _ => a) =
      (if a.confidence_score < config.confidence_threshold then
        .fallback_message generationFallbackMsg
      else .answer a) := by
    rw [query_books, if_neg (by omega)]
  refine ⟨?_, ?_, ?_⟩
  · intro heq
    rw [hbase, if_neg (by rw [heq]; exact lt_irrefl _)]
  · intro hlt
    rw [hbase, if_pos hlt]
  · rw [hbase]
    by_cases hlt : a.confidence_score < config.confidence_threshold
    · rw [if_pos hlt]
      simp
    · rw [if_neg hlt]
      simp

/-- Witness for C2 with the default configuration
(`confidence_threshold = 0.7`), two retrieved chunks, and an answer whose
confidence is exactly 0.7. -/
theorem generation_gate_boundary_witness :
    query_books {} [⟨1, 1, "c1"⟩, ⟨2, 1, "c2"⟩]
        (fun _ => ⟨"summary", [], 7/10⟩) =
      .answer ⟨"summary", [], 7/10⟩ :=
  (generation_gate_boundary {} [⟨1, 1, "c1"⟩, ⟨2, 1, "c2"⟩]
    ⟨"summary", [], 7/10⟩ (by norm_num)).1 rfl

/-! ## Config store theorems (src/core/config_store.py) -/

theorem validate_config_ok_iff (c : RAGConfig) :
    validate_config c = .ok () ↔ specConfigInBounds c := by
  rw [validate_config, specConfigInBounds]
  by_cases h1 : c.retrieval_top_k < 1
  · rw [if_pos h1]
    exact iff_of_false (by simp) (by rintro ⟨b1, _⟩; omega)
  rw [if_neg h1]
  by_cases h2 : c.min_chunks < 1
  · rw [if_pos h2]
    exact iff_of_false (by simp) (by rintro ⟨_, b2, _⟩; omega)
  rw [if_neg h2]
  by_cases h3 : ¬ (0 ≤ c.confidence_threshold ∧ c.confidence_threshold ≤ 1)
  · rw [if_pos h3]
    exact iff_of_false (by simp)
      (by rintro ⟨_, _, b3, b4, _⟩; exact h3 ⟨b3, b4⟩)
  rw [if_neg h3]
  rw [not_not] at h3
  by_cases h4 : ¬ (0 ≤ c.relevance_threshold ∧ c.relevance_threshold ≤ 1)
  · rw [if_pos h4]
    exact iff_of_false (by simp)
      (by rintro ⟨_, _, _, _, b5, b6, _⟩; exact h4 ⟨b5, b6⟩)
  rw [if_neg h4]
  rw [not_not] at h4
  by_cases h5 : c.max_context_length < 100
  · rw [if_pos h5]
    exact iff_of_false (by simp)
      (by rintro ⟨_, _, _, _, _, _, b7, _⟩; omega)
  rw [if_neg h5]
  by_cases h6 : ¬ (0 ≤ c.temperature ∧ c.temperature ≤ 2)
  · rw [if_pos h6]
    exact iff_of_false (by simp)
      (by rintro ⟨_, _, _, _, _, _, _, b8, b9, _⟩; exact h6 ⟨b8, b9⟩)
  rw [if_neg h6]
  rw [not_not] at h6
  by_cases h7 : c.min_chunks > c.retrieval_top_k
  · rw [if_pos h7]
    exact iff_of_false (by simp)
      (by rintro ⟨_, _, _, _, _, _, _, _, _, b10⟩; omega)
  rw [if_neg h7]
  exact iff_of_true rfl
    ⟨by omega, by omega, h3.1, h3.2, h4.1, h4.2, by omega, h6.1, h6.2,
      by omega⟩

/-- C6: a proposed configuration is rejected (the update raises a
`ValueError`) exactly when one of the documented bounds is violated, and on
every rejected update the store is left untouched: a subsequent read
returns the pre-update configuration. -/
theorem config_update_validate_then_swap (store : Option RAGConfig)
    (new_config : RAGConfig) :
    ((update_rag_config store new_config).2.isOk = true ↔
      specConfigInBounds new_config) ∧
    (¬ specConfigInBounds new_config →
      (update_rag_config store new_config).1 = store ∧
      (get_rag_config (update_rag_config store new_config).1).2 =
        (get_rag_config store).2) := by
  constructor
  · cases hv : validate_config new_config with
    | ok u =>
      cases u
      have he : (update_rag_config store new_config).2 = .ok new_config := by
        simp only [update_rag_config, hv]
      rw [he]
      exact iff_of_true rfl ((validate_config_ok_iff _).mp hv)
    | error e =>
      have he : (update_rag_config store new_config).2 = .error e := by
        simp only [update_rag_config, hv]
      rw [he]
      refine iff_of_false (by simp [Except.isOk, Except.toBool]) ?_
      intro hb
      have hok := (validate_config_ok_iff _).mpr hb
      rw [hv] at hok
      exact Except.noConfusion hok
  · intro hnb
    cases hve : validate_config new_config with
    | ok u =>
      cases u
      exact absurd ((validate_config_ok_iff _).mp hve) hnb
    | error e =>
      have he : update_rag_config store new_config = (store, .error e) := by
        simp only [update_rag_config, hve]
      rw [he]
      exact ⟨rfl, rfl⟩

/-- Witness for C6: updating from the default configuration to one with
`min_chunks = 5 > retrieval_top_k = 3` is rejected and a subsequent read
still returns the default configuration. -/
theorem config_update_validate_then_swap_witness :
    ¬ specConfigInBounds
        { retrieval_top_k := 3, min_chunks := 5, confidence_threshold := 7/10,
          relevance_threshold := 5/10, max_context_length := 4000,
          temperature := 1/10, enable_fallback := true } ∧
    (update_rag_config (some DEFAULT_CONFIG)
        { retrieval_top_k := 3, min_chunks := 5, confidence_threshold := 7/10,
          relevance_threshold := 5/10, max_context_length := 4000,
          temperature := 1/10, enable_fallback := true }).1 =
      some DEFAULT_CONFIG ∧
    (get_rag_config (update_rag_config (some DEFAULT_CONFIG)
        { retrieval_top_k := 3, min_chunks := 5, confidence_threshold := 7/10,
          relevance_threshold := 5/10, max_context_length := 4000,
          temperature := 1/10, enable_fallback := true }).1).2 =
      (get_rag_config (some DEFAULT_CONFIG)).2 := by
  have hnb : ¬ specConfigInBounds
      { retrieval_top_k := 3, min_chunks := 5, confidence_threshold := 7/10,
        relevance_threshold := 5/10, max_context_length := 4000,
        temperature := 1/10, enable_fallback := true } := by
    rintro ⟨_, _, _, _, _, _, _, _, _, b10⟩
    norm_num at b10
  have h := (config_update_validate_then_swap (some DEFAULT_CONFIG)
    { retrieval_top_k := 3, min_chunks := 5, confidence_threshold := 7/10,
      relevance_threshold := 5/10, max_context_length := 4000,
      temperature := 1/10, enable_fallback := true }).2 hnb
  exact ⟨hnb, h.1, h.2⟩

/-! ## Answer-validation theorems (src/core/llm_client.py) -/

/-- C7, evaluated at the repository's own test input
(`test_validate_answer_response_invalid_claims`): a claim *missing required
fields* is indeed dropped while the rest of the response is returned — but
a claim whose `source_chunk_id` is the non-numeric string `"invalid"`
reaches `int(...)` inside the `try`, which raises, so the whole response
fails with `ValidationError` instead of the claim being dropped.  The
second conjunct exhibits this divergence between the code and the claim
(and the repository's test, which asserts the claim is filtered out). -/
theorem validate_answer_nonnumeric_chunk_id_fails_response :
    validate_answer_response answerDataMissingFieldClaim =
      .ok ⟨"Test", [⟨"Valid claim", 123, 5⟩], 1⟩ ∧
    validate_answer_response answerDataNonNumericId =
      .error
        "Answer validation failed: invalid literal for int() with base 10: invalid" :=
  ⟨rfl, rfl⟩

/-! ## Sanitizer theorems (src/core/sanitizer.py) -/

theorem final_cleanup_invariant (u : String) (ch : Changes) :
    ((final_cleanup u ch).1 = contentTooShortMarker ∨
      10 ≤ pyLen (final_cleanup u ch).1) ∧
    pyStrip (final_cleanup u ch).1 = (final_cleanup u ch).1 := by
  simp only [final_cleanup]
  split
  next h => exact ⟨Or.inl rfl, by rfl⟩
  next h => exact ⟨Or.inr (Nat.le_of_not_lt h), pyStrip_idem _⟩

/-- C8: the sanitizer is total — for every input value (`None`, the empty
string, any non-string value, any non-empty string) and every context it
returns a `SanitizationResult` (no operation in the pipeline can raise) —
and for empty or absent input the result carries empty sanitized text, an
empty change map, and `is_modified = false`.  The statement quantifies over
every behaviour of the regex stages. -/
theorem sanitize_total_and_empty (st : SanitizerStages) (context : String) :
    (∀ v : PyVal, ∃ r : SanitizationResult,
        sanitize_text_for_llm st v context = r) ∧
    sanitize_text_for_llm st .pynone context =
      ⟨.pystr "", .pystr "", [], false⟩ ∧
    sanitize_text_for_llm st (.pystr "") context =
      ⟨.pystr "", .pystr "", [], false⟩ :=
  ⟨fun _ => ⟨_, rfl⟩, rfl, rfl⟩

/-- C10: for every non-empty string input, every context and every
behaviour of the regex stages, the sanitized text is either exactly the
`[CONTENT_TOO_SHORT]` marker or at least 10 characters long, and in all
cases it equals its own stripped form (no leading or trailing
whitespace) — a consequence of `_final_cleanup` running last. -/
theorem sanitize_nonempty_invariant (st : SanitizerStages) (context : String)
    (s : String) (hs : s ≠ "") :
    ∃ t : String,
      (sanitize_text_for_llm st (.pystr s) context).sanitized_text =
        .pystr t ∧
      (t = contentTooShortMarker ∨ 10 ≤ pyLen t) ∧
      pyStrip t = t := by
  simp only [sanitize_text_for_llm]
  rw [if_neg hs]
  exact ⟨_, rfl, (final_cleanup_invariant _ _).1,
    (final_cleanup_invariant _ _).2⟩

/-- Witness for C10 at the do-nothing stage record and the concrete inputs
`"  hello world  "` (stripped, long enough) in the `"general"` context. -/
theorem sanitize_nonempty_invariant_witness :
    ∃ t : String,
      (sanitize_text_for_llm trivialStages (.pystr "  hello world  ")
          "general").sanitized_text = .pystr t ∧
      (t = contentTooShortMarker ∨ 10 ≤ pyLen t) ∧
      pyStrip t = t :=
  sanitize_nonempty_invariant trivialStages "general" "  hello world  "
    (by simp)

/-! ## Chunker lemmas (src/agents/parser.py) -/

theorem mem_of_head?_eq_some {α : Type} {l : List α} {a : α}
    (h : l.head? = some a) : a ∈ l := by
  cases l with
  | nil => simp at h
  | cons x xs =>
    simp only [List.head?_cons, Option.some_inj] at h
    simp [h]

theorem data_ne_nil_of_ne_empty {s : String} (h : s ≠ "") : s.data ≠ [] :=
  fun hd => h (String.ext (by rw [hd]))

theorem ne_empty_of_data_ne_nil {s : String} (h : s.data ≠ []) : s ≠ "" :=
  fun he => h (by rw [he])

theorem stripped_head?_not {s : String} (h : pyStrip s = s) :
    ∀ c, s.data.head? = some c → pyIsSpace c = false := by
  intro c hc
  have hd : stripList s.data = s.data := congrArg String.data h
  apply stripList_head?_not (l := s.data)
  rw [hd]
  exact hc

theorem stripped_getLast?_not {s : String} (h : pyStrip s = s) :
    ∀ c, s.data.getLast? = some c → pyIsSpace c = false := by
  intro c hc
  have hd : stripList s.data = s.data := congrArg String.data h
  apply stripList_getLast?_not (l := s.data)
  rw [hd]
  exact hc

theorem stripList_eq_self_append {x y : List Char} (mid : List Char)
    (hx : x ≠ []) (hy : y ≠ [])
    (hhead : ∀ c, x.head? = some c → pyIsSpace c = false)
    (hlast : ∀ c, y.getLast? = some c → pyIsSpace c = false) :
    stripList (x ++ mid ++ y) = x ++ mid ++ y := by
  apply stripList_eq_self
  · intro c hc
    cases x with
    | nil => exact absurd rfl hx
    | cons a xs =>
      simp only [List.cons_append, List.head?_cons, Option.some_inj] at hc
      exact hc ▸ hhead a rfl
  · intro c hc
    have hy' := List.getLast?_eq_getLast y hy
    rw [List.getLast?_append, hy'] at hc
    simp only [Option.or, Option.some_inj] at hc
    exact hc ▸ hlast _ hy'

theorem pyStrip_append_eq {x y : String} (mid : String)
    (hx : pyStrip x = x) (hx' : x ≠ "") (hy : pyStrip y = y) (hy' : y ≠ "") :
    pyStrip (x ++ mid ++ y) = x ++ mid ++ y := by
  apply String.ext
  rw [pyStrip_data, String.data_append, String.data_append]
  exact stripList_eq_self_append mid.data (data_ne_nil_of_ne_empty hx')
    (data_ne_nil_of_ne_empty hy') (stripped_head?_not hx)
    (stripped_getLast?_not hy)

theorem splitWsAux_words :
    ∀ (l acc : List Char), (∀ c ∈ acc, pyIsSpace c = false) →
      ∀ w ∈ splitWsAux l acc, w ≠ [] ∧ ∀ c ∈ w, pyIsSpace c = false := by
  intro l
  induction l with
  | nil =>
    intro acc hacc w hw
    by_cases hae : acc.isEmpty
    · simp [splitWsAux, hae] at hw
    · simp only [splitWsAux, hae, Bool.false_eq_true, if_false,
        List.mem_singleton] at hw
      subst hw
      refine ⟨?_, ?_⟩
      · simp only [ne_eq, List.reverse_eq_nil_iff]
        exact fun h => hae (by simp [h])
      · intro c hc
        exact hacc c (List.mem_reverse.mp hc)
  | cons c cs ih =>
    intro acc hacc w hw
    by_cases hsp : pyIsSpace c
    · simp only [splitWsAux, hsp, if_true, List.mem_append] at hw
      rcases hw with hw | hw
      · by_cases hae : acc.isEmpty
        · simp [hae] at hw
        · simp only [hae, Bool.false_eq_true, if_false,
            List.mem_singleton] at hw
          subst hw
          refine ⟨?_, ?_⟩
          · simp only [ne_eq, List.reverse_eq_nil_iff]
            exact fun h => hae (by simp [h])
          · intro d hd
            exact hacc d (List.mem_reverse.mp hd)
      · exact ih [] (by simp) w hw
    · simp only [splitWsAux, hsp, Bool.false_eq_true, if_false] at hw
      refine ih (c :: acc) ?_ w hw
      intro d hd
      rcases List.mem_cons.mp hd with rfl | hd
      · simpa using hsp
      · exact hacc d hd

theorem pySplitWs_words (s : String) :
    ∀ w ∈ pySplitWs s, w ≠ [] ∧ ∀ c ∈ w, pyIsSpace c = false :=
  splitWsAux_words s.data [] (by simp)

theorem joinSpaceL_facts :
    ∀ (ws : List (List Char)), ws ≠ [] →
      (∀ w ∈ ws, w ≠ [] ∧ ∀ c ∈ w, pyIsSpace c = false) →
      joinSpaceL ws ≠ [] ∧
      (∀ c, (joinSpaceL ws).head? = some c → pyIsSpace c = false) ∧
      (∀ c, (joinSpaceL ws).getLast? = some c → pyIsSpace c = false) := by
  intro ws
  induction ws with
  | nil => intro h; exact absurd rfl h
  | cons w ws ih =>
    intro _ hw
    cases ws with
    | nil =>
      have hwp := hw w (by simp)
      refine ⟨by simpa [joinSpaceL] using hwp.1, ?_, ?_⟩
      · intro c hc
        exact hwp.2 c (mem_of_head?_eq_some (by simpa [joinSpaceL] using hc))
      · intro c hc
        exact hwp.2 c (List.mem_of_getLast?_eq_some
          (by simpa [joinSpaceL] using hc))
    | cons v vs =>
      have hwp := hw w (by simp)
      have ihr := ih (by simp) (fun u hu => hw u (by simp [hu]))
      have hje : joinSpaceL (w :: v :: vs) =
          w ++ (' ' :: joinSpaceL (v :: vs)) := rfl
      refine ⟨?_, ?_, ?_⟩
      · rw [hje]
        simp [hwp.1]
      · intro c hc
        rw [hje] at hc
        cases hxw : w with
        | nil => exact absurd hxw hwp.1
        | cons a xs =>
          rw [hxw, List.cons_append, List.head?_cons] at hc
          have : a = c := Option.some_inj.mp hc
          exact this ▸ hwp.2 a (by simp [hxw])
      · intro c hc
        rw [hje] at hc
        have hjne := ihr.1
        have hj' := List.getLast?_eq_getLast (joinSpaceL (v :: vs)) hjne
        have hcons : (' ' :: joinSpaceL (v :: vs)) =
            [' '] ++ joinSpaceL (v :: vs) := rfl
        rw [hcons, List.getLast?_append, List.getLast?_append, hj'] at hc
        simp only [Option.or, Option.some_inj] at hc
        exact hc ▸ ihr.2.2 _ hj'

theorem mk_join_stripped (ws : List (List Char)) (hne : ws ≠ [])
    (hw : ∀ w ∈ ws, w ≠ [] ∧ ∀ c ∈ w, pyIsSpace c = false) :
    pyStrip (String.mk (joinSpaceL ws)) = String.mk (joinSpaceL ws) ∧
    String.mk (joinSpaceL ws) ≠ "" := by
  have hj := joinSpaceL_facts ws hne hw
  constructor
  · apply String.ext
    rw [pyStrip_data]
    exact stripList_eq_self hj.2.1 hj.2.2
  · exact ne_empty_of_data_ne_nil hj.1

theorem append_ne_empty_right {x y : String} (hy : y ≠ "") : x ++ y ≠ "" := by
  apply ne_empty_of_data_ne_nil
  rw [String.data_append]
  intro h
  exact data_ne_nil_of_ne_empty hy (List.append_eq_nil.mp h).2

theorem processParagraph_step (chunk_size : Int) (st : ChunkState)
    (p : String)
    (hst : st.current_chunk = "" ∨
      (pyStrip st.current_chunk = st.current_chunk ∧ st.current_chunk ≠ ""))
    (hp1 : pyStrip p = p) (hp2 : p ≠ "") :
    (pyStrip (processParagraph chunk_size st p).current_chunk =
        (processParagraph chunk_size st p).current_chunk ∧
      (processParagraph chunk_size st p).current_chunk ≠ "") ∧
    heldIn (processParagraph chunk_size st p) p ∧
    (∀ q : String, heldIn st q → heldIn (processParagraph chunk_size st p) q)
    := by
  by_cases hcond : ((pyLen (st.current_chunk ++ p) : Int) > chunk_size ∧
      st.current_chunk ≠ "")
  · have hstr := hst.resolve_left hcond.2
    simp only [processParagraph]
    rw [if_pos hcond]
    have htransfer : ∀ q : String, heldIn st q →
        heldIn ⟨st.chunks ++ [⟨pyStrip st.current_chunk,
          match extract_page_number_from_paragraph p with
          | some n => if n ≠ 0 then n else st.current_page
          | none => st.current_page, st.chunk_order⟩],
          if (pySplitWs st.current_chunk).length > 10 then
            String.mk (joinSpaceL (pyLastSlice 50
              (pySplitWs st.current_chunk))) ++ " " ++ p
          else p,
          match extract_page_number_from_paragraph p with
          | some n => if n ≠ 0 then n else st.current_page
          | none => st.current_page, st.chunk_order + 1⟩ q := by
      intro q hq
      rcases hq with ⟨c, hc, hinf⟩ | ⟨hne, hinf⟩
      · exact Or.inl ⟨c, List.mem_append_left _ hc, hinf⟩
      · refine Or.inl ⟨_, List.mem_append_right _ (List.mem_singleton.mpr rfl),
          ?_⟩
        show List.IsInfix q.data (pyStrip st.current_chunk).data
        rw [hstr.1]
        exact hinf
    by_cases hw : (pySplitWs st.current_chunk).length > 10
    · rw [if_pos hw] at htransfer ⊢
      have hws_ne : pyLastSlice 50 (pySplitWs st.current_chunk) ≠ [] := by
        apply List.ne_nil_of_length_pos
        rw [pyLastSlice, List.length_drop]
        omega
      have hws_mem : ∀ w ∈ pyLastSlice 50 (pySplitWs st.current_chunk),
          w ≠ [] ∧ ∀ c ∈ w, pyIsSpace c = false := by
        intro w hwmem
        exact pySplitWs_words st.current_chunk w (List.mem_of_mem_drop hwmem)
      have hx := mk_join_stripped _ hws_ne hws_mem
      refine ⟨⟨pyStrip_append_eq " " hx.1 hx.2 hp1 hp2,
        append_ne_empty_right hp2⟩, ?_, htransfer⟩
      refine Or.inr ⟨append_ne_empty_right hp2, ?_⟩
      refine ⟨(String.mk (joinSpaceL (pyLastSlice 50
        (pySplitWs st.current_chunk)))).data ++ " ".data, [], ?_⟩
      simp [String.data_append]
    · rw [if_neg hw] at htransfer ⊢
      exact ⟨⟨hp1, hp2⟩, Or.inr ⟨hp2, List.infix_refl _⟩, htransfer⟩
  · simp only [processParagraph]
    rw [if_neg hcond]
    by_cases hce : st.current_chunk = ""
    · rw [if_neg (not_not_intro hce)]
      refine ⟨⟨hp1, hp2⟩, Or.inr ⟨hp2, List.infix_refl _⟩, ?_⟩
      intro q hq
      rcases hq with ⟨c, hc, hinf⟩ | ⟨hne, _⟩
      · exact Or.inl ⟨c, hc, hinf⟩
      · exact absurd hce hne
    · rw [if_pos hce]
      have hstr := hst.resolve_left hce
      refine ⟨⟨pyStrip_append_eq "\n\n" hstr.1 hce hp1 hp2,
        append_ne_empty_right hp2⟩, ?_, ?_⟩
      · refine Or.inr ⟨append_ne_empty_right hp2, ?_⟩
        refine ⟨st.current_chunk.data ++ "\n\n".data, [], ?_⟩
        simp [String.data_append]
      · intro q hq
        rcases hq with ⟨c, hc, hinf⟩ | ⟨hne, hinf⟩
        · exact Or.inl ⟨c, hc, hinf⟩
        · refine Or.inr ⟨append_ne_empty_right hp2, ?_⟩
          refine hinf.trans ?_
          refine ⟨[], "\n\n".data ++ p.data, ?_⟩
          simp [String.data_append]

theorem chunk_fold (chunk_size : Int) :
    ∀ (ps : List String) (st : ChunkState),
      (st.current_chunk = "" ∨
        (pyStrip st.current_chunk = st.current_chunk ∧
          st.current_chunk ≠ "")) →
      (∀ p ∈ ps, pyStrip p = p ∧ p ≠ "") →
      ((ps.foldl (processParagraph chunk_size) st).current_chunk = "" ∨
        (pyStrip (ps.foldl (processParagraph chunk_size) st).current_chunk =
            (ps.foldl (processParagraph chunk_size) st).current_chunk ∧
          (ps.foldl (processParagraph chunk_size) st).current_chunk ≠ "")) ∧
      (∀ p ∈ ps, heldIn (ps.foldl (processParagraph chunk_size) st) p) ∧
      (∀ q : String, heldIn st q →
        heldIn (ps.foldl (processParagraph chunk_size) st) q) := by
  intro ps
  induction ps with
  | nil =>
    intro st hst _
    exact ⟨hst, by simp, fun _ h => h⟩
  | cons p ps ih =>
    intro st hst hps
    have hp := hps p (by simp)
    have hstep := processParagraph_step chunk_size st p hst hp.1 hp.2
    have hih := ih (processParagraph chunk_size st p) (Or.inr hstep.1)
      (fun q hq => hps q (by simp [hq]))
    simp only [List.foldl_cons]
    refine ⟨hih.1, ?_, ?_⟩
    · intro q hq
      rcases List.mem_cons.mp hq with rfl | hq
      · exact hih.2.2 q hstep.2.1
      · exact hih.2.1 q hq
    · intro q hq
      exact hih.2.2 q (hstep.2.2 q hq)

theorem paragraphsOf_stripped (text : String) :
    ∀ p ∈ paragraphsOf text, pyStrip p = p ∧ p ≠ "" := by
  intro p hp
  rw [paragraphsOf] at hp
  obtain ⟨hmem, hdec⟩ := List.mem_filter.mp hp
  have hne : p ≠ "" := by simpa using hdec
  obtain ⟨q, _, rfl⟩ := List.mem_map.mp hmem
  exact ⟨pyStrip_idem q, hne⟩

set_option maxRecDepth 100000 in
/-- C9: every paragraph of the input text is emitted whole — it appears as
a contiguous substring of some produced chunk's text, never split across
chunks.  In particular (second conjunct) a single 1100-character paragraph
under the default 1000-character budget becomes exactly one chunk holding
the whole paragraph, so a chunk may exceed the budget. -/
theorem chunker_paragraphs_whole :
    (∀ (text : String) (chunk_size overlap : Int),
      ∀ p ∈ paragraphsOf text,
        ∃ c ∈ perform_semantic_chunking text chunk_size overlap,
          List.IsInfix p.data c.chunk_text.data) ∧
    (perform_semantic_chunking (String.mk (List.replicate 1100 'a'))
        1000 200 =
      [⟨String.mk (List.replicate 1100 'a'), 1, 0⟩] ∧
      1000 < (pyLen (String.mk (List.replicate 1100 'a')) : Int)) := by
  constructor
  · intro text chunk_size overlap p hp
    have hps := paragraphsOf_stripped text
    have hfold := chunk_fold chunk_size (paragraphsOf text) ⟨[], "", 1, 0⟩
      (Or.inl rfl) hps
    have hheld := hfold.2.1 p hp
    rw [perform_semantic_chunking]
    by_cases hne : pyStrip ((paragraphsOf text).foldl
        (processParagraph chunk_size) ⟨[], "", 1, 0⟩).current_chunk ≠ ""
    · rw [if_pos hne]
      rcases hheld with ⟨c, hc, hinf⟩ | ⟨hcur_ne, hinf⟩
      · exact ⟨c, List.mem_append_left _ hc, hinf⟩
      · have hcur := hfold.1.resolve_left hcur_ne
        refine ⟨_, List.mem_append_right _ (List.mem_singleton.mpr rfl), ?_⟩
        show List.IsInfix p.data (pyStrip ((paragraphsOf text).foldl
          (processParagraph chunk_size) ⟨[], "", 1, 0⟩).current_chunk).data
        rw [hcur.1]
        exact hinf
    · rw [if_neg hne]
      rcases hheld with ⟨c, hc, hinf⟩ | ⟨hcur_ne, hinf⟩
      · exact ⟨c, hc, hinf⟩
      · have hcur := hfold.1.resolve_left hcur_ne
        rw [not_not, hcur.1] at hne
        exact absurd hne hcur_ne
  · constructor
    · rfl
    · show (1000 : Int) < ((List.replicate 1100 'a').length : Int)
      rw [List.length_replicate]
      norm_num

/-- Witness for C9 at the concrete two-paragraph text
`"First paragraph here.\n\nSecond paragraph text."`. -/
theorem chunker_paragraphs_whole_witness :
    ∃ c ∈ perform_semantic_chunking
        "First paragraph here.\n\nSecond paragraph text." 1000 200,
      List.IsInfix ("First paragraph here.").data c.chunk_text.data :=
  chunker_paragraphs_whole.1
    "First paragraph here.\n\nSecond paragraph text." 1000 200
    "First paragraph here." (by decide)
